import Mathlib

/-!
Shallow embedding of `src/Auxiliary/Aux_ComputeProfile.cpp` (GAMER).

The routine `Aux_ComputeProfile` computes volume-weighted radial profiles of
selected hydrodynamic quantities on an AMR grid.  We model its exact-real
semantics: C `double` arithmetic becomes arithmetic on `ℝ`, the C cast
`int(x)` (truncation toward zero) becomes `cIntR`, machine loops become
folds over explicit lists of cells, and the (serial-build, single-thread)
MPI/OpenMP reduction collapses to the identity, as it does in the source
when `SERIAL` is defined and `NT = 1`.  The `#ifdef GAMER_DEBUG` blocks are
modelled by an explicit `GAMER_DEBUG : Bool` parameter.  `Aux_Error` aborts
the program; we model the whole call as `Except String _`, returning
`Except.error` where the source calls `Aux_Error`.
-/

namespace GamerProfile

/-- C cast `int(x)` of a `double`: truncation toward zero
(floor for nonnegative arguments, ceiling for negative ones). -/
noncomputable def cIntR (x : ℝ) : ℤ := if 0 ≤ x then ⌊x⌋ else ⌈x⌉

/-- Number of radial bins (lines 95–105 of the source):
log mode `int( log(r_max_input/dr_min)/log(LogBinRatio) ) + 2`,
linear mode `(int)ceil( r_max_input / dr_min )`. -/
noncomputable def NBin_of (LogBin : Bool) (r_max_input dr_min LogBinR : ℝ) : ℤ :=
  if LogBin then cIntR (Real.log (r_max_input / dr_min) / Real.log LogBinR) + 2
  else ⌈r_max_input / dr_min⌉

/-- Maximum radius actually used (lines 98 and 104 of the source):
log mode `dr_min*pow( LogBinRatio, NBin-1 )` (real-exponent `pow` at the
integer value `NBin-1`), linear mode `dr_min*NBin`. -/
noncomputable def MaxRadius_of (LogBin : Bool) (dr_min LogBinR : ℝ) (NBin : ℤ) : ℝ :=
  if LogBin then dr_min * LogBinR ^ (((NBin - 1 : ℤ) : ℝ)) else dr_min * NBin

/-- Nominal radial coordinate of bin `b` (lines 122–125 of the source):
log mode `dr_min*pow( LogBinRatio, b-0.5 )`, linear mode `(b+0.5)*dr_min`. -/
noncomputable def Radius_of (LogBin : Bool) (dr_min LogBinR : ℝ) (b : ℕ) : ℝ :=
  if LogBin then dr_min * LogBinR ^ ((b : ℝ) - 0.5) else ((b : ℝ) + 0.5) * dr_min

/-- Bin index of a cell at distance `r` (lines 209–210 of the source):
`( LogBin ) ? ( (r<dr_min) ? 0 : int( log(r/dr_min)/log(LogBinRatio) ) + 1 )
            : int( r/dr_min )`. -/
noncomputable def binOf (LogBin : Bool) (dr_min LogBinR r : ℝ) : ℤ :=
  if LogBin then
    (if r < dr_min then 0 else cIntR (Real.log (r / dr_min) / Real.log LogBinR) + 1)
  else cIntR (r / dr_min)

/-- The five conserved fluid fields stored per cell (`fluid[...]`, HYDRO model). -/
inductive Fluid | DENS | MOMX | MOMY | MOMZ | ENGY
deriving DecidableEq

/-- The recognized target-variable codes (`TVar[p]`) handled by the
quantity `switch` of the source (HYDRO model). -/
inductive Quant | DENS | MOMX | MOMY | MOMZ | ENGY | VRAD | PRESSURE | INTERNAL_ENGY
deriving DecidableEq

/-- Global simulation state referenced by the source
(`amr->BoxSize`, `OPT__BC_FLU`, `GAMMA`, `NULL_REAL`) together with the
external equation-of-state collaborator `Hydro_GetPressure`
(arguments: Dens MomX MomY MomZ Engy Gamma_m1 EngyB; the source's
`CheckMinPres=false, MinPres=NULL_REAL` are fixed and elided). -/
structure Ctx where
  BoxSize : Fin 3 → ℝ
  Periodic : Fin 3 → Bool
  GAMMA : ℝ
  NULL_REAL : ℝ
  Hydro_GetPressure : ℝ → ℝ → ℝ → ℝ → ℝ → ℝ → ℝ → ℝ

/-- Per-axis nearest-image correction (lines 188–202 of the source):
on a periodic axis an offset beyond `+HalfBox` is reduced by the box size,
an offset below `-HalfBox` is increased by it. -/
noncomputable def wrapAxis (BoxSize : ℝ) (periodic : Bool) (d : ℝ) : ℝ :=
  if periodic then
    if d > 0.5 * BoxSize then d - BoxSize
    else if d < -(0.5 * BoxSize) then d + BoxSize
    else d
  else d

/-- One leaf cell as seen by the accumulation loop: its level's cell
spacing `dh`, its cell-center position, and its fluid field values. -/
structure CellSample where
  dh : ℝ
  pos : Fin 3 → ℝ
  fluid : Fluid → ℝ

/-- Nearest-image-corrected offset of a cell from the profile center along
axis `d` (the source computes `pos - Center` componentwise, then wraps). -/
noncomputable def cellOffset (ctx : Ctx) (Center : Fin 3 → ℝ) (c : CellSample) (d : Fin 3) : ℝ :=
  wrapAxis (ctx.BoxSize d) (ctx.Periodic d) (c.pos d - Center d)

/-- Squared corrected distance `r2 = SQR(dx) + SQR(dy) + SQR(dz)` (line 204). -/
noncomputable def cellR2 (ctx : Ctx) (Center : Fin 3 → ℝ) (c : CellSample) : ℝ :=
  cellOffset ctx Center c 0 ^ 2 + cellOffset ctx Center c 1 ^ 2 + cellOffset ctx Center c 2 ^ 2

/-- C `atan2(y,x)`: the argument of the complex number `x + i y`. -/
noncomputable def atan2 (y x : ℝ) : ℝ := Complex.arg ⟨x, y⟩

/-- The (contribution, weight) pair accumulated for one cell and one target
quantity (the `switch ( quant )` of lines 224–308, non-MHD build):
plain fields use `(field*dv, dv)`; `VRAD` projects the momentum on the
outward radial direction and weights by mass; `PRESSURE` calls the
equation-of-state collaborator; `INTERNAL_ENGY` subtracts the kinetic term. -/
noncomputable def quantContrib (ctx : Ctx) (q : Quant) (dx dy dz r dv : ℝ)
    (fl : Fluid → ℝ) : ℝ × ℝ :=
  match q with
  | .DENS => (fl .DENS * dv, dv)
  | .ENGY => (fl .ENGY * dv, dv)
  | .MOMX => (fl .MOMX * dv, dv)
  | .MOMY => (fl .MOMY * dv, dv)
  | .MOMZ => (fl .MOMZ * dv, dv)
  | .VRAD =>
      let Phi := atan2 dy dx
      let cosPhi := Real.cos Phi
      let sinPhi := Real.sin Phi
      let cosTheta := dz / r
      let sinTheta := Real.sqrt (1 - cosTheta ^ 2)
      let MomRad := fl .MOMX * sinTheta * cosPhi + fl .MOMY * sinTheta * sinPhi
                  + fl .MOMZ * cosTheta
      (MomRad * dv, fl .DENS * dv)
  | .PRESSURE =>
      let EngyB := ctx.NULL_REAL
      let Pres := ctx.Hydro_GetPressure (fl .DENS) (fl .MOMX) (fl .MOMY) (fl .MOMZ)
                    (fl .ENGY) (ctx.GAMMA - 1) EngyB
      (Pres * dv, dv)
  | .INTERNAL_ENGY =>
      let intengy := fl .ENGY
                   - 0.5 * (fl .MOMX ^ 2 + fl .MOMY ^ 2 + fl .MOMZ ^ 2) / fl .DENS
      (intengy * dv, dv)

/-- Accumulator arrays for one profile (the `OMP_Data/OMP_Weight/OMP_NCell`
slices of one profile for the single thread of a serial build), viewed as
total functions on bin indices. -/
structure AccState where
  Data : ℕ → ℝ
  Weight : ℕ → ℝ
  NCell : ℕ → ℤ

/-- Zero-initialized accumulator (lines 161–167 of the source). -/
def AccState.init : AccState := ⟨fun _ => 0, fun _ => 0, fun _ => 0⟩

/-- The accumulation performed for one in-range cell (the body of the
`for (int p=...)` loop at lines 219–311, for one profile): add the
(contribution, weight) pair of quantity `q` to bin `j` and increment that
bin's cell count. -/
noncomputable def accAdd (ctx : Ctx) (q : Quant) (dx dy dz r dv : ℝ)
    (fl : Fluid → ℝ) (j : ℕ) (s : AccState) : AccState :=
  { Data := Function.update s.Data j (s.Data j + (quantContrib ctx q dx dy dz r dv fl).1)
    Weight := Function.update s.Weight j (s.Weight j + (quantContrib ctx q dx dy dz r dv fl).2)
    NCell := Function.update s.NCell j (s.NCell j + 1) }

/-- Processing of one cell by the accumulation loop body (lines 188–312 of
the source) for one profile of quantity `q`: wrap the offset, compare the
squared distance against `r_max2`, compute the bin, skip it when
`bin >= NBin` (round-off guard), otherwise accumulate the quantity's
(contribution, weight) pair and increment the cell count. -/
noncomputable def accCell (ctx : Ctx) (Center : Fin 3 → ℝ) (r_max2 dr_min : ℝ)
    (LogBin : Bool) (LogBinR : ℝ) (NBin : ℤ) (q : Quant)
    (s : AccState) (c : CellSample) : AccState :=
  if cellR2 ctx Center c < r_max2 then
    if binOf LogBin dr_min LogBinR (Real.sqrt (cellR2 ctx Center c)) ≥ NBin then s
    else
      accAdd ctx q (cellOffset ctx Center c 0) (cellOffset ctx Center c 1)
        (cellOffset ctx Center c 2) (Real.sqrt (cellR2 ctx Center c)) (c.dh ^ 3)
        c.fluid (binOf LogBin dr_min LogBinR (Real.sqrt (cellR2 ctx Center c))).toNat s
  else s

/-- Accumulation of one profile over a list of cells (the level/patch/cell
loops of lines 173–315; profiles are independent of each other inside the
cell loop, so the per-profile result is a fold over the cells). -/
noncomputable def accProfile (ctx : Ctx) (Center : Fin 3 → ℝ) (r_max2 dr_min : ℝ)
    (LogBin : Bool) (LogBinR : ℝ) (NBin : ℤ) (q : Quant)
    (cells : List CellSample) : AccState :=
  cells.foldl (accCell ctx Center r_max2 dr_min LogBin LogBinR NBin q) AccState.init

/-- One AMR patch on some level: its `son` index (`-1` marks a leaf), its
left-edge coordinate `EdgeL`, and its per-cell fluid data indexed
`fluid[v][k][j][i]` over a cube of side `PS1`. -/
structure Patch (PS1 : ℕ) where
  son : ℤ
  EdgeL : Fin 3 → ℝ
  fluid : Fluid → Fin PS1 → Fin PS1 → Fin PS1 → ℝ

/-- One refinement level: its cell spacing `amr->dh[lv]` and its patches. -/
structure Level (PS1 : ℕ) where
  dh : ℝ
  patches : List (Patch PS1)

/-- The loop index governing axis `d`: `i` along x, `j` along y, `k`
along z. -/
def idxR {PS1 : ℕ} (i j k : Fin PS1) (d : Fin 3) : ℝ :=
  if d.val = 0 then (i : ℝ) else if d.val = 1 then (j : ℝ) else (k : ℝ)

/-- The cells of one patch, in the source's `k`-outer / `j` / `i`-inner loop
order; the cell center along axis `d` is `EdgeL[d] + (idx_d + 0.5)*dh`
(the source computes `EdgeL + 0.5*dh - Center` and later adds `idx*dh`). -/
noncomputable def patchCells {PS1 : ℕ} (dh : ℝ) (pt : Patch PS1) : List CellSample :=
  (List.finRange PS1).flatMap fun (k : Fin PS1) =>
  (List.finRange PS1).flatMap fun (j : Fin PS1) =>
  (List.finRange PS1).map fun (i : Fin PS1) =>
    { dh := dh
      pos := fun d => pt.EdgeL d + (idxR i j k d + 0.5) * dh
      fluid := fun v => pt.fluid v k j i }

/-- The leaf cells of one level: patches with `son != -1` are skipped
(line 181 of the source). -/
noncomputable def levelCells {PS1 : ℕ} (lv : Level PS1) : List CellSample :=
  (lv.patches.filter (fun pt => pt.son = -1)).flatMap (patchCells lv.dh)

/-- Level-range selection (lines 170–171 of the source): `SingleLv < 0`
loops over all levels, otherwise only over level `SingleLv`. -/
def selectLevels {PS1 : ℕ} (SingleLv : ℤ) (levels : List (Level PS1)) :
    List (Level PS1) :=
  if SingleLv < 0 then levels else (levels.drop SingleLv.toNat).take 1

/-- One `Profile_t` object after the call, with its member arrays.
`Profile_t` itself lives in `include/Profile.h` (outside the excerpt); per
the spec's data model it holds the center, the bin count, the binning
policy, the maximum radius, and four arrays sized to `NBin`. -/
structure ProfileData where
  NBin : ℤ
  MaxRadius : ℝ
  LogBin : Bool
  LogBinR : ℝ
  Center : Fin 3 → ℝ
  Radius : List ℝ
  Data : List ℝ
  Weight : List ℝ
  NCell : List ℤ

/-- Normalization of one bin (lines 372–393 of the source): empty bins are
skipped; the seven plain volume-weighted quantities divide by the weight
unconditionally; `VRAD` divides only when the (mass) weight is positive. -/
noncomputable def normEntry (q : Quant) (ncell : ℤ) (data weight : ℝ) : ℝ :=
  if ncell > 0 then
    match q with
    | .VRAD => if weight > 0 then data / weight else data
    | _ => data / weight
  else data

/-- One profile as produced by geometry setup (lines 91–127), accumulation
(lines 130–341), the serial-build rank reduction (identity), and
normalization (lines 365–395): arrays are materialized on the index range
`0 ≤ b < NBin`.  The squared comparison radius is `SQR(Prof[0]->MaxRadius)`
(line 146); every profile's `MaxRadius` equals profile 0's at that point,
so the profile's own value is used here. -/
noncomputable def computeProfileRaw (ctx : Ctx) (Center : Fin 3 → ℝ)
    (r_max_input dr_min : ℝ) (LogBin : Bool) (LogBinR : ℝ) (q : Quant)
    (cells : List CellSample) : ProfileData :=
  let NBin := NBin_of LogBin r_max_input dr_min LogBinR
  let MaxR := MaxRadius_of LogBin dr_min LogBinR NBin
  let s := accProfile ctx Center (MaxR ^ 2) dr_min LogBin LogBinR NBin q cells
  { NBin := NBin
    MaxRadius := MaxR
    LogBin := LogBin
    LogBinR := if LogBin then LogBinR else 0
    Center := Center
    Radius := (List.range NBin.toNat).map (Radius_of LogBin dr_min LogBinR)
    Data := (List.range NBin.toNat).map (fun b => normEntry q (s.NCell b) (s.Data b) (s.Weight b))
    Weight := (List.range NBin.toNat).map s.Weight
    NCell := (List.range NBin.toNat).map s.NCell }

/-- Keep the entries of `l` whose position is marked `true` in `mask`,
preserving order (the observable effect, on the meaningful length-`NBin`
prefix, of the in-place run-shifting removal loop of lines 409–440). -/
def maskKeep {α : Type} : List Bool → List α → List α
  | [], _ => []
  | _ :: _, [] => []
  | b :: m, a :: l => if b then a :: maskKeep m l else maskKeep m l

/-- Compaction of one profile: drop the masked-out bins from all four
arrays in lock-step and reduce `NBin` by the number of removed bins. -/
def compactOne (mask : List Bool) (removed : ℤ) (P : ProfileData) : ProfileData :=
  { P with
    NBin := P.NBin - removed
    Radius := maskKeep mask P.Radius
    Data := maskKeep mask P.Data
    Weight := maskKeep mask P.Weight
    NCell := maskKeep mask P.NCell }

/-- Empty-bin removal (lines 407–440 of the source): the removal decisions
are driven by profile 0's cell counts (`Prof[0]->NCell`); every profile's
four arrays are shifted down in lock-step and every profile's `NBin` is
reduced by the total number of removed bins. -/
def compactProfiles : List ProfileData → List ProfileData
  | [] => []
  | P0 :: rest =>
    (P0 :: rest).map
      (compactOne (P0.NCell.map fun n => decide (n ≠ 0))
        ((P0.NCell.map fun n => decide (n ≠ 0)).count false))

/-- Maximum-radius update (lines 443–450 of the source, executed for every
profile on every call): extrapolation from the last two radius entries,
geometric in log mode, linear otherwise.  The source reads
`Radius[NBin-1]` and `Radius[NBin-2]`; for `NBin < 2` that access is out
of bounds (undefined behavior, flagged as an open question in the spec),
modelled here by `getD _ 0`. -/
noncomputable def updateMaxRadius (LogBin : Bool) (P : ProfileData) : ProfileData :=
  let b := P.NBin
  { P with
    MaxRadius :=
      if LogBin then P.Radius.getD (b - 1).toNat 0 ^ 2 / P.Radius.getD (b - 2).toNat 0
      else 2 * P.Radius.getD (b - 1).toNat 0 - P.Radius.getD (b - 2).toNat 0 }

/-- All leaf cells visited by the accumulation loops (lines 173–315):
the leaf patches of every selected level, cell by cell. -/
noncomputable def coreCells {PS1 : ℕ} (SingleLv : ℤ) (levels : List (Level PS1)) :
    List CellSample :=
  (selectLevels SingleLv levels).flatMap levelCells

/-- One normalized (not yet compacted) profile per requested quantity. -/
noncomputable def rawProfiles (ctx : Ctx) (Center : Fin 3 → ℝ)
    (r_max_input dr_min : ℝ) (LogBin : Bool) (LogBinR : ℝ) (TVar : List Quant)
    (cells : List CellSample) : List ProfileData :=
  TVar.map fun q => computeProfileRaw ctx Center r_max_input dr_min LogBin LogBinR q cells

/-- The whole computation after the parameter checks: geometry setup,
accumulation over all leaf cells of the selected levels, (serial)
reduction, normalization, optional empty-bin removal, and the
unconditional maximum-radius update. -/
noncomputable def computeCore {PS1 : ℕ} (ctx : Ctx) (Center : Fin 3 → ℝ)
    (r_max_input dr_min : ℝ) (LogBin : Bool) (LogBinR : ℝ) (RemoveEmpty : Bool)
    (TVar : List Quant) (SingleLv : ℤ) (levels : List (Level PS1)) :
    List ProfileData :=
  (if RemoveEmpty then
      compactProfiles (rawProfiles ctx Center r_max_input dr_min LogBin LogBinR TVar
        (coreCells SingleLv levels))
    else
      rawProfiles ctx Center r_max_input dr_min LogBin LogBinR TVar
        (coreCells SingleLv levels)).map (updateMaxRadius LogBin)

/-- `Aux_ComputeProfile` (lines 73–452 of the source), serial build.  The
parameter checks of lines 79–88 exist only under `#ifdef GAMER_DEBUG`;
they run before anything else (in particular before `AllocateMemory`), and
`Aux_Error` aborts, modelled as `Except.error`. -/
noncomputable def Aux_ComputeProfile (GAMER_DEBUG : Bool) {PS1 : ℕ} (ctx : Ctx)
    (Center : Fin 3 → ℝ) (r_max_input dr_min : ℝ) (LogBin : Bool) (LogBinR : ℝ)
    (RemoveEmpty : Bool) (TVar : List Quant) (SingleLv : ℤ)
    (levels : List (Level PS1)) : Except String (List ProfileData) :=
  if GAMER_DEBUG = true then
    if r_max_input ≤ 0 then .error "r_max_input <= 0.0 !!"
    else if dr_min ≤ 0 then .error "dr_min <= 0.0 !!"
    else if LogBin = true ∧ LogBinR ≤ 1 then .error "LogBinRatio <= 1.0 !!"
    else .ok (computeCore ctx Center r_max_input dr_min LogBin LogBinR RemoveEmpty
                TVar SingleLv levels)
  else .ok (computeCore ctx Center r_max_input dr_min LogBin LogBinR RemoveEmpty
              TVar SingleLv levels)

/-! ### Basic lemmas about the C `int` cast -/

theorem cIntR_of_nonneg {x : ℝ} (h : 0 ≤ x) : cIntR x = ⌊x⌋ := if_pos h

theorem cIntR_of_neg {x : ℝ} (h : x < 0) : cIntR x = ⌈x⌉ := if_neg (not_le.2 h)

/-! ### C4 : linear bin geometry -/

/-- C4: for every valid linear-binning configuration (`r_max > 0`,
`dr_min > 0`), the geometry configurator sets `bin_count = ceil(r_max/dr_min)`,
sets the outer radius to `dr_min * bin_count` (which is at least the
requested `r_max`, hence may exceed it), and fills
`radius[b] = (b + 0.5) * dr_min` for every bin `b`. -/
theorem linear_geometry (r_max dr rho : ℝ) (hr : 0 < r_max) (hd : 0 < dr) :
    NBin_of false r_max dr rho = ⌈r_max / dr⌉ ∧
    MaxRadius_of false dr rho (NBin_of false r_max dr rho) =
      dr * ((NBin_of false r_max dr rho : ℤ) : ℝ) ∧
    r_max ≤ MaxRadius_of false dr rho (NBin_of false r_max dr rho) ∧
    ∀ b : ℕ, Radius_of false dr rho b = ((b : ℝ) + 0.5) * dr := by
  refine ⟨rfl, rfl, ?_, fun b => rfl⟩
  have h1 : r_max / dr ≤ ((⌈r_max / dr⌉ : ℤ) : ℝ) := Int.le_ceil _
  have h2 : r_max = (r_max / dr) * dr := by field_simp
  calc r_max = (r_max / dr) * dr := h2
    _ ≤ ((⌈r_max / dr⌉ : ℤ) : ℝ) * dr := mul_le_mul_of_nonneg_right h1 hd.le
    _ = dr * ((⌈r_max / dr⌉ : ℤ) : ℝ) := mul_comm _ _

/-- Witness for `linear_geometry` at `r_max = 2`, `dr_min = 1`. -/
theorem linear_geometry_witness :
    NBin_of false 2 1 2 = ⌈(2 : ℝ) / 1⌉ ∧
    MaxRadius_of false 1 2 (NBin_of false 2 1 2) = 1 * ((NBin_of false 2 1 2 : ℤ) : ℝ) ∧
    (2 : ℝ) ≤ MaxRadius_of false 1 2 (NBin_of false 2 1 2) ∧
    ∀ b : ℕ, Radius_of false 1 2 b = ((b : ℝ) + 0.5) * 1 :=
  linear_geometry 2 1 2 (by norm_num) (by norm_num)

/-! ### C3 : logarithmic bin geometry -/

/-- C3 (amended): for every logarithmic-binning configuration with
`dr_min > 0`, `r_max ≥ dr_min` and `ratio > 1`, the configurator sets
`bin_count = floor(log(r_max/dr_min)/log(ratio)) + 2`, sets the outer
radius to `dr_min * ratio^(bin_count-1)`, and fills
`radius[b] = dr_min * ratio^(b - 0.5)` for every bin `b`.  (The source's
`int(...)` cast truncates toward zero; it agrees with `floor` exactly when
the argument is nonnegative, i.e. when `r_max ≥ dr_min`.) -/
theorem log_geometry (r_max dr rho : ℝ) (hd : 0 < dr) (hdr : dr ≤ r_max) (hrho : 1 < rho) :
    NBin_of true r_max dr rho = ⌊Real.log (r_max / dr) / Real.log rho⌋ + 2 ∧
    MaxRadius_of true dr rho (NBin_of true r_max dr rho) =
      dr * rho ^ (NBin_of true r_max dr rho - 1) ∧
    ∀ b : ℕ, Radius_of true dr rho b = dr * rho ^ ((b : ℝ) - 0.5) := by
  have hlog : 0 ≤ Real.log (r_max / dr) / Real.log rho :=
    div_nonneg (Real.log_nonneg ((one_le_div hd).mpr hdr)) (Real.log_pos hrho).le
  refine ⟨?_, ?_, fun b => rfl⟩
  · show cIntR (Real.log (r_max / dr) / Real.log rho) + 2 = _
    rw [cIntR_of_nonneg hlog]
  · show dr * rho ^ (((NBin_of true r_max dr rho - 1 : ℤ) : ℝ)) = _
    rw [Real.rpow_intCast]

/-- Witness for `log_geometry` at `r_max = 4`, `dr_min = 1`, `ratio = 2`. -/
theorem log_geometry_witness :
    NBin_of true 4 1 2 = ⌊Real.log ((4 : ℝ) / 1) / Real.log 2⌋ + 2 ∧
    MaxRadius_of true 1 2 (NBin_of true 4 1 2) = 1 * 2 ^ (NBin_of true 4 1 2 - 1) ∧
    ∀ b : ℕ, Radius_of true 1 2 b = 1 * 2 ^ ((b : ℝ) - 0.5) :=
  log_geometry 4 1 2 (by norm_num) (by norm_num) (by norm_num)

/-- C3 counterexample: at the valid configuration `r_max = 1`, `dr_min = 2`,
`ratio = 4` (so `log(r_max/dr_min)/log(ratio) = -1/2`), the source's
truncation-toward-zero cast gives `bin_count = 0 + 2 = 2`, while the
claimed `floor` formula gives `-1 + 2 = 1`. -/
theorem log_geometry_counterexample :
    (0 : ℝ) < 1 ∧ (0 : ℝ) < 2 ∧ (1 : ℝ) < 4 ∧
    NBin_of true 1 2 4 = 2 ∧
    ⌊Real.log ((1 : ℝ) / 2) / Real.log 4⌋ + 2 = 1 ∧
    NBin_of true 1 2 4 ≠ ⌊Real.log ((1 : ℝ) / 2) / Real.log 4⌋ + 2 := by
  have hq : Real.log ((1 : ℝ) / 2) / Real.log 4 = -(1 / 2) := by
    have h4 : (4 : ℝ) = 2 ^ (2 : ℕ) := by norm_num
    have hl4 : Real.log 4 = 2 * Real.log 2 := by
      rw [h4, Real.log_pow]; push_cast; ring
    have hl2 : Real.log ((1 : ℝ) / 2) = -Real.log 2 := by
      rw [one_div, Real.log_inv]
    have hne : Real.log 2 ≠ 0 := ne_of_gt (Real.log_pos one_lt_two)
    rw [hl2, hl4]
    field_simp
    ring
  have hNB : NBin_of true 1 2 4 = 2 := by
    show cIntR (Real.log ((1 : ℝ) / 2) / Real.log 4) + 2 = 2
    rw [hq, cIntR_of_neg (by norm_num)]
    norm_num
  have hfl : ⌊Real.log ((1 : ℝ) / 2) / Real.log 4⌋ + 2 = 1 := by
    rw [hq]; norm_num
  exact ⟨by norm_num, by norm_num, by norm_num, hNB, hfl, by rw [hNB, hfl]; norm_num⟩

/-! ### C5 : parameter checks -/

/-- Whether an `Except` result is a normal return (no `Aux_Error` abort). -/
def isOkE {ε α : Type} : Except ε α → Bool
  | .ok _ => true
  | .error _ => false

/-- A concrete global context for witnesses: unit box, no periodic axis,
`GAMMA = 2`, a zero equation-of-state stub. -/
def ctx0 : Ctx := ⟨fun _ => 1, fun _ => false, 2, 0, fun _ _ _ _ _ _ _ => 0⟩

/-- A concrete profile center for witnesses: the origin. -/
def c0 : Fin 3 → ℝ := fun _ => 0

/-- C5 (amended): in debug builds (`GAMER_DEBUG` defined), every call with
`r_max <= 0`, or `dr_min <= 0`, or (log mode) `ratio <= 1` aborts with the
fatal invalid-parameter error; the checks run first, so the abort happens
before the per-profile arrays are allocated (the call produces no profile
set at all). -/
theorem param_check_debug {PS1 : ℕ} (ctx : Ctx) (Center : Fin 3 → ℝ)
    (r_max dr : ℝ) (LogBin : Bool) (rho : ℝ) (RemoveEmpty : Bool)
    (TVar : List Quant) (SingleLv : ℤ) (levels : List (Level PS1))
    (hbad : r_max ≤ 0 ∨ dr ≤ 0 ∨ (LogBin = true ∧ rho ≤ 1)) :
    isOkE (Aux_ComputeProfile true ctx Center r_max dr LogBin rho RemoveEmpty
      TVar SingleLv levels) = false := by
  unfold Aux_ComputeProfile
  rw [if_pos rfl]
  rcases hbad with h | h | h
  · rw [if_pos h]; rfl
  · by_cases h1 : r_max ≤ 0
    · rw [if_pos h1]; rfl
    · rw [if_neg h1, if_pos h]; rfl
  · by_cases h1 : r_max ≤ 0
    · rw [if_pos h1]; rfl
    · rw [if_neg h1]
      by_cases h2 : dr ≤ 0
      · rw [if_pos h2]; rfl
      · rw [if_neg h2, if_pos h]; rfl

/-- Witness for `param_check_debug`: a debug-build call with `r_max = -1`. -/
theorem param_check_debug_witness :
    ((-1 : ℝ) ≤ 0 ∨ (1 : ℝ) ≤ 0 ∨ (false = true ∧ (2 : ℝ) ≤ 1)) ∧
    isOkE (Aux_ComputeProfile true ctx0 c0 (-1) 1 false 2 false [Quant.DENS]
      (-1) ([] : List (Level 1))) = false :=
  ⟨Or.inl (by norm_num),
   param_check_debug ctx0 c0 (-1) 1 false 2 false [Quant.DENS] (-1) []
     (Or.inl (by norm_num))⟩

/-- C5 counterexample: the checks of lines 79–88 sit inside
`#ifdef GAMER_DEBUG`, so in a non-debug build a call with `r_max = -1 ≤ 0`
does not fail at all — it returns normally, contradicting the claim that
every such call fails with a fatal invalid-parameter error. -/
theorem param_check_counterexample :
    ((-1 : ℝ) ≤ 0) ∧
    isOkE (Aux_ComputeProfile false ctx0 c0 (-1) 1 false 2 false [Quant.DENS]
      (-1) ([] : List (Level 1))) = true := by
  constructor
  · norm_num
  · unfold Aux_ComputeProfile
    rw [if_neg (by simp)]
    rfl

/-! ### C1 : per-cell radius test and bin assignment -/

/-- The bin-index formula in the form stated by the spec, with `floor`:
linear mode `floor(r/dr_min)`; log mode `0` if `r < dr_min`, else
`floor(log(r/dr_min)/log(ratio)) + 1`. -/
noncomputable def specBin (LogBin : Bool) (dr rho r : ℝ) : ℤ :=
  if LogBin then
    (if r < dr then 0 else ⌊Real.log (r / dr) / Real.log rho⌋ + 1)
  else ⌊r / dr⌋

/-- For a nonnegative distance (and a valid configuration) the source's
truncating casts agree with the spec's `floor` formula. -/
theorem binOf_eq_specBin (LogBin : Bool) {dr rho : ℝ} (r : ℝ) (hd : 0 < dr)
    (hr : 0 ≤ r) (hrho : LogBin = true → 1 < rho) :
    binOf LogBin dr rho r = specBin LogBin dr rho r := by
  cases LogBin with
  | false =>
      show cIntR (r / dr) = ⌊r / dr⌋
      exact cIntR_of_nonneg (div_nonneg hr hd.le)
  | true =>
      show (if r < dr then 0 else cIntR (Real.log (r / dr) / Real.log rho) + 1) =
        (if r < dr then 0 else ⌊Real.log (r / dr) / Real.log rho⌋ + 1)
      by_cases hlt : r < dr
      · rw [if_pos hlt, if_pos hlt]
      · rw [if_neg hlt, if_neg hlt]
        have h1 : 1 ≤ r / dr := (one_le_div hd).mpr (not_lt.1 hlt)
        have h2 : 0 ≤ Real.log (r / dr) / Real.log rho :=
          div_nonneg (Real.log_nonneg h1) (Real.log_pos (hrho rfl)).le
        rw [cIntR_of_nonneg h2]

/-- A cell at or beyond the squared outer radius leaves the accumulator
unchanged. -/
theorem accCell_far {ctx : Ctx} {Center : Fin 3 → ℝ} {r_max2 dr : ℝ}
    {LogBin : Bool} {rho : ℝ} {NBin : ℤ} {q : Quant} {s : AccState} {c : CellSample}
    (h : ¬ cellR2 ctx Center c < r_max2) :
    accCell ctx Center r_max2 dr LogBin rho NBin q s c = s := by
  unfold accCell; rw [if_neg h]

/-- An in-range cell whose bin index reaches `NBin` is skipped. -/
theorem accCell_skip {ctx : Ctx} {Center : Fin 3 → ℝ} {r_max2 dr : ℝ}
    {LogBin : Bool} {rho : ℝ} {NBin : ℤ} {q : Quant} {s : AccState} {c : CellSample}
    (h1 : cellR2 ctx Center c < r_max2)
    (h2 : NBin ≤ binOf LogBin dr rho (Real.sqrt (cellR2 ctx Center c))) :
    accCell ctx Center r_max2 dr LogBin rho NBin q s c = s := by
  unfold accCell; rw [if_pos h1, if_pos h2]

/-- An in-range cell with a valid bin index accumulates into that bin. -/
theorem accCell_hit {ctx : Ctx} {Center : Fin 3 → ℝ} {r_max2 dr : ℝ}
    {LogBin : Bool} {rho : ℝ} {NBin : ℤ} {q : Quant} {s : AccState} {c : CellSample}
    (h1 : cellR2 ctx Center c < r_max2)
    (h2 : binOf LogBin dr rho (Real.sqrt (cellR2 ctx Center c)) < NBin) :
    accCell ctx Center r_max2 dr LogBin rho NBin q s c =
      accAdd ctx q (cellOffset ctx Center c 0) (cellOffset ctx Center c 1)
        (cellOffset ctx Center c 2) (Real.sqrt (cellR2 ctx Center c)) (c.dh ^ 3)
        c.fluid (binOf LogBin dr rho (Real.sqrt (cellR2 ctx Center c))).toNat s := by
  unfold accCell; rw [if_pos h1, if_neg (not_le.2 h2)]

/-- C1: a cell processed by the local accumulator contributes if and only
if its squared nearest-image-corrected distance is strictly below the
squared outer radius; a contributing cell is assigned the bin index
`floor(r/dr_min)` in linear mode, or `0` if `r < dr_min` and
`floor(log(r/dr_min)/log(ratio)) + 1` otherwise in log mode; a computed
index reaching `bin_count` is skipped. -/
theorem cell_binning (ctx : Ctx) (Center : Fin 3 → ℝ) (r_max2 dr : ℝ)
    (LogBin : Bool) (rho : ℝ) (NBin : ℤ) (q : Quant) (s : AccState) (c : CellSample)
    (hd : 0 < dr) (hrho : LogBin = true → 1 < rho)
    (r2 r : ℝ) (idx : ℤ)
    (hr2 : r2 = cellR2 ctx Center c) (hr : r = Real.sqrt r2)
    (hidx : idx = specBin LogBin dr rho r) :
    (¬ r2 < r_max2 → accCell ctx Center r_max2 dr LogBin rho NBin q s c = s) ∧
    (r2 < r_max2 → NBin ≤ idx →
      accCell ctx Center r_max2 dr LogBin rho NBin q s c = s) ∧
    (r2 < r_max2 → idx < NBin →
      accCell ctx Center r_max2 dr LogBin rho NBin q s c =
        accAdd ctx q (cellOffset ctx Center c 0) (cellOffset ctx Center c 1)
          (cellOffset ctx Center c 2) r (c.dh ^ 3) c.fluid idx.toNat s ∧
      (accCell ctx Center r_max2 dr LogBin rho NBin q s c).NCell idx.toNat =
        s.NCell idx.toNat + 1) := by
  subst hr2 hr
  have hb : binOf LogBin dr rho (Real.sqrt (cellR2 ctx Center c)) = idx := by
    rw [hidx]
    exact binOf_eq_specBin LogBin _ hd (Real.sqrt_nonneg _) hrho
  refine ⟨fun h => accCell_far h, fun h1 h2 => ?_, fun h1 h2 => ?_⟩
  · exact accCell_skip h1 (by rw [hb]; exact h2)
  have hhit := accCell_hit (q := q) (s := s) h1
    (show binOf LogBin dr rho (Real.sqrt (cellR2 ctx Center c)) < NBin by rw [hb]; exact h2)
  rw [hb] at hhit
  refine ⟨hhit, ?_⟩
  rw [hhit]
  show Function.update s.NCell idx.toNat (s.NCell idx.toNat + 1) idx.toNat = _
  rw [Function.update_same]

/-- Witness for `cell_binning`: a cell at the center of a linear-binned
profile with `dr_min = 1`, `NBin = 10`, squared outer radius `36`. -/
theorem cell_binning_witness :
    ((0 : ℝ) < 1) ∧
    (¬ cellR2 ctx0 c0 ⟨1, fun _ => 0, fun _ => 2⟩ < 36 →
      accCell ctx0 c0 36 1 false 2 10 Quant.DENS AccState.init ⟨1, fun _ => 0, fun _ => 2⟩ =
        AccState.init) ∧
    (cellR2 ctx0 c0 ⟨1, fun _ => 0, fun _ => 2⟩ < 36 →
      (10 : ℤ) ≤ specBin false 1 2 (Real.sqrt (cellR2 ctx0 c0 ⟨1, fun _ => 0, fun _ => 2⟩)) →
      accCell ctx0 c0 36 1 false 2 10 Quant.DENS AccState.init ⟨1, fun _ => 0, fun _ => 2⟩ =
        AccState.init) ∧
    (cellR2 ctx0 c0 ⟨1, fun _ => 0, fun _ => 2⟩ < 36 →
      specBin false 1 2 (Real.sqrt (cellR2 ctx0 c0 ⟨1, fun _ => 0, fun _ => 2⟩)) < 10 →
      accCell ctx0 c0 36 1 false 2 10 Quant.DENS AccState.init ⟨1, fun _ => 0, fun _ => 2⟩ =
        accAdd ctx0 Quant.DENS (cellOffset ctx0 c0 ⟨1, fun _ => 0, fun _ => 2⟩ 0)
          (cellOffset ctx0 c0 ⟨1, fun _ => 0, fun _ => 2⟩ 1)
          (cellOffset ctx0 c0 ⟨1, fun _ => 0, fun _ => 2⟩ 2)
          (Real.sqrt (cellR2 ctx0 c0 ⟨1, fun _ => 0, fun _ => 2⟩)) ((1 : ℝ) ^ 3)
          (fun _ => 2)
          (specBin false 1 2 (Real.sqrt (cellR2 ctx0 c0 ⟨1, fun _ => 0, fun _ => 2⟩))).toNat
          AccState.init ∧
      (accCell ctx0 c0 36 1 false 2 10 Quant.DENS AccState.init
          ⟨1, fun _ => 0, fun _ => 2⟩).NCell
          (specBin false 1 2 (Real.sqrt (cellR2 ctx0 c0 ⟨1, fun _ => 0, fun _ => 2⟩))).toNat =
        AccState.init.NCell
          (specBin false 1 2 (Real.sqrt (cellR2 ctx0 c0 ⟨1, fun _ => 0, fun _ => 2⟩))).toNat
          + 1) :=
  ⟨by norm_num,
   cell_binning ctx0 c0 36 1 false 2 10 Quant.DENS AccState.init ⟨1, fun _ => 0, fun _ => 2⟩
     (by norm_num) (fun h => by simp at h) _ _ _ rfl rfl rfl⟩

/-! ### C2 : normalization policy -/

/-- For the seven plain volume-weighted quantities a nonempty bin is
divided by its weight unconditionally. -/
theorem normEntry_plain {q : Quant} (hq : q ≠ Quant.VRAD) {n : ℤ} (hn : 0 < n)
    (d w : ℝ) : normEntry q n d w = d / w := by
  unfold normEntry
  rw [if_pos hn]
  cases q
  case VRAD => exact absurd rfl hq
  all_goals rfl

/-- For radial velocity a nonempty bin is divided only when its
(mass) weight is positive. -/
theorem normEntry_vrad {n : ℤ} (hn : 0 < n) (d w : ℝ) :
    normEntry Quant.VRAD n d w = if w > 0 then d / w else d := by
  unfold normEntry
  rw [if_pos hn]

/-- A bin with zero cell count is left untouched by normalization. -/
theorem normEntry_empty (q : Quant) (d w : ℝ) : normEntry q 0 d w = d := by
  unfold normEntry
  rw [if_neg (lt_irrefl 0)]

/-- One accumulation step preserves the invariant "cell counts are
nonnegative, and a zero-count bin has zero data and weight". -/
theorem accCell_empty_inv (ctx : Ctx) (Center : Fin 3 → ℝ) (r_max2 dr : ℝ)
    (LogBin : Bool) (rho : ℝ) (NBin : ℤ) (q : Quant) (s : AccState) (c : CellSample)
    (h0 : ∀ b, 0 ≤ s.NCell b ∧ (s.NCell b = 0 → s.Data b = 0 ∧ s.Weight b = 0)) :
    ∀ b, 0 ≤ (accCell ctx Center r_max2 dr LogBin rho NBin q s c).NCell b ∧
      ((accCell ctx Center r_max2 dr LogBin rho NBin q s c).NCell b = 0 →
        (accCell ctx Center r_max2 dr LogBin rho NBin q s c).Data b = 0 ∧
        (accCell ctx Center r_max2 dr LogBin rho NBin q s c).Weight b = 0) := by
  intro b
  by_cases h1 : cellR2 ctx Center c < r_max2
  · by_cases h2 : binOf LogBin dr rho (Real.sqrt (cellR2 ctx Center c)) ≥ NBin
    · rw [accCell_skip h1 h2]; exact h0 b
    · rw [accCell_hit h1 (not_le.1 h2)]
      unfold accAdd
      by_cases hb : b = (binOf LogBin dr rho (Real.sqrt (cellR2 ctx Center c))).toNat
      · subst hb
        simp only [Function.update_same]
        have hnn : 0 ≤ s.NCell (binOf LogBin dr rho (Real.sqrt (cellR2 ctx Center c))).toNat :=
          (h0 (binOf LogBin dr rho (Real.sqrt (cellR2 ctx Center c))).toNat).1
        exact ⟨by omega, fun hz => absurd hz (by omega)⟩
      · simp only [Function.update_noteq hb]
        exact h0 b
  · rw [accCell_far h1]; exact h0 b

/-- Accumulation invariant over a whole cell list. -/
theorem accProfile_empty_inv (ctx : Ctx) (Center : Fin 3 → ℝ) (r_max2 dr : ℝ)
    (LogBin : Bool) (rho : ℝ) (NBin : ℤ) (q : Quant) (cells : List CellSample) :
    ∀ b, 0 ≤ (accProfile ctx Center r_max2 dr LogBin rho NBin q cells).NCell b ∧
      ((accProfile ctx Center r_max2 dr LogBin rho NBin q cells).NCell b = 0 →
        (accProfile ctx Center r_max2 dr LogBin rho NBin q cells).Data b = 0 ∧
        (accProfile ctx Center r_max2 dr LogBin rho NBin q cells).Weight b = 0) := by
  suffices h : ∀ s : AccState,
      (∀ b, 0 ≤ s.NCell b ∧ (s.NCell b = 0 → s.Data b = 0 ∧ s.Weight b = 0)) →
      ∀ b, 0 ≤ (List.foldl (accCell ctx Center r_max2 dr LogBin rho NBin q) s cells).NCell b ∧
        ((List.foldl (accCell ctx Center r_max2 dr LogBin rho NBin q) s cells).NCell b = 0 →
          (List.foldl (accCell ctx Center r_max2 dr LogBin rho NBin q) s cells).Data b = 0 ∧
          (List.foldl (accCell ctx Center r_max2 dr LogBin rho NBin q) s cells).Weight b = 0) by
    exact h AccState.init (fun b => ⟨le_refl 0, fun _ => ⟨rfl, rfl⟩⟩)
  induction cells with
  | nil => intro s h0; exact h0
  | cons cI rest ih =>
      intro s h0
      rw [List.foldl_cons]
      exact ih _ (accCell_empty_inv ctx Center r_max2 dr LogBin rho NBin q s cI h0)

/-- C2: during normalization, a bin with positive cell count is divided by
its weight — unconditionally for the plain volume-weighted quantities, and
only when the weight is positive for radial velocity (otherwise the raw
accumulated sum is kept); a bin with zero cell count has zero data and
weight and is left untouched (never divided). -/
theorem normalization_policy (ctx : Ctx) (Center : Fin 3 → ℝ) (r_max2 dr : ℝ)
    (LogBin : Bool) (rho : ℝ) (NBin : ℤ) (q : Quant) (cells : List CellSample)
    (s : AccState) (hs : s = accProfile ctx Center r_max2 dr LogBin rho NBin q cells)
    (b : ℕ) :
    (s.NCell b = 0 → s.Data b = 0 ∧ s.Weight b = 0 ∧
      normEntry q (s.NCell b) (s.Data b) (s.Weight b) = s.Data b) ∧
    (0 < s.NCell b → q ≠ Quant.VRAD →
      normEntry q (s.NCell b) (s.Data b) (s.Weight b) = s.Data b / s.Weight b) ∧
    (0 < s.NCell b → q = Quant.VRAD →
      normEntry q (s.NCell b) (s.Data b) (s.Weight b) =
        if s.Weight b > 0 then s.Data b / s.Weight b else s.Data b) := by
  refine ⟨fun h0 => ?_, fun hn hq => normEntry_plain hq hn _ _, fun hn hq => ?_⟩
  · have hinv := (accProfile_empty_inv ctx Center r_max2 dr LogBin rho NBin q cells b).2
    rw [← hs] at hinv
    exact ⟨(hinv h0).1, (hinv h0).2, by rw [h0]; exact normEntry_empty q _ _⟩
  · subst hq
    exact normEntry_vrad hn _ _

/-- A concrete cell for witnesses: spacing `1`, centered at the origin,
all fluid fields equal to `2`. -/
def cellW : CellSample := ⟨1, fun _ => 0, fun _ => 2⟩

/-- Witness for `normalization_policy` on a concrete one-cell input. -/
theorem normalization_policy_witness :
    ((accProfile ctx0 c0 1 1 false 2 1 Quant.DENS [cellW]).NCell 0 = 0 →
      (accProfile ctx0 c0 1 1 false 2 1 Quant.DENS [cellW]).Data 0 = 0 ∧
      (accProfile ctx0 c0 1 1 false 2 1 Quant.DENS [cellW]).Weight 0 = 0 ∧
      normEntry Quant.DENS ((accProfile ctx0 c0 1 1 false 2 1 Quant.DENS [cellW]).NCell 0)
        ((accProfile ctx0 c0 1 1 false 2 1 Quant.DENS [cellW]).Data 0)
        ((accProfile ctx0 c0 1 1 false 2 1 Quant.DENS [cellW]).Weight 0) =
        (accProfile ctx0 c0 1 1 false 2 1 Quant.DENS [cellW]).Data 0) ∧
    (0 < (accProfile ctx0 c0 1 1 false 2 1 Quant.DENS [cellW]).NCell 0 →
      Quant.DENS ≠ Quant.VRAD →
      normEntry Quant.DENS ((accProfile ctx0 c0 1 1 false 2 1 Quant.DENS [cellW]).NCell 0)
        ((accProfile ctx0 c0 1 1 false 2 1 Quant.DENS [cellW]).Data 0)
        ((accProfile ctx0 c0 1 1 false 2 1 Quant.DENS [cellW]).Weight 0) =
        (accProfile ctx0 c0 1 1 false 2 1 Quant.DENS [cellW]).Data 0 /
        (accProfile ctx0 c0 1 1 false 2 1 Quant.DENS [cellW]).Weight 0) ∧
    (0 < (accProfile ctx0 c0 1 1 false 2 1 Quant.DENS [cellW]).NCell 0 →
      Quant.DENS = Quant.VRAD →
      normEntry Quant.DENS ((accProfile ctx0 c0 1 1 false 2 1 Quant.DENS [cellW]).NCell 0)
        ((accProfile ctx0 c0 1 1 false 2 1 Quant.DENS [cellW]).Data 0)
        ((accProfile ctx0 c0 1 1 false 2 1 Quant.DENS [cellW]).Weight 0) =
        if (accProfile ctx0 c0 1 1 false 2 1 Quant.DENS [cellW]).Weight 0 > 0 then
          (accProfile ctx0 c0 1 1 false 2 1 Quant.DENS [cellW]).Data 0 /
          (accProfile ctx0 c0 1 1 false 2 1 Quant.DENS [cellW]).Weight 0
        else (accProfile ctx0 c0 1 1 false 2 1 Quant.DENS [cellW]).Data 0) :=
  normalization_policy ctx0 c0 1 1 false 2 1 Quant.DENS [cellW] _ rfl 0

/-! ### C7 : uniform density profile -/

/-- For a uniform density field, accumulation of `DENS` keeps
`Data = rho0 * Weight` with nonnegative weights that are positive wherever
the cell count is. -/
theorem accProfile_dens_inv (ctx : Ctx) (Center : Fin 3 → ℝ) (r_max2 dr : ℝ)
    (LogBin : Bool) (rho : ℝ) (NBin : ℤ) (cells : List CellSample) (rho0 : ℝ)
    (hdens : ∀ c ∈ cells, c.fluid Fluid.DENS = rho0)
    (hdh : ∀ c ∈ cells, 0 < c.dh) :
    ∀ b, (accProfile ctx Center r_max2 dr LogBin rho NBin Quant.DENS cells).Data b =
        rho0 * (accProfile ctx Center r_max2 dr LogBin rho NBin Quant.DENS cells).Weight b ∧
      0 ≤ (accProfile ctx Center r_max2 dr LogBin rho NBin Quant.DENS cells).Weight b ∧
      (0 < (accProfile ctx Center r_max2 dr LogBin rho NBin Quant.DENS cells).NCell b →
        0 < (accProfile ctx Center r_max2 dr LogBin rho NBin Quant.DENS cells).Weight b) := by
  suffices h : ∀ (cs : List CellSample), (∀ c ∈ cs, c.fluid Fluid.DENS = rho0) →
      (∀ c ∈ cs, 0 < c.dh) → ∀ s : AccState,
      (∀ b, s.Data b = rho0 * s.Weight b ∧ 0 ≤ s.Weight b ∧
        (0 < s.NCell b → 0 < s.Weight b)) →
      ∀ b, (List.foldl (accCell ctx Center r_max2 dr LogBin rho NBin Quant.DENS) s cs).Data b =
          rho0 * (List.foldl (accCell ctx Center r_max2 dr LogBin rho NBin Quant.DENS) s cs).Weight b ∧
        0 ≤ (List.foldl (accCell ctx Center r_max2 dr LogBin rho NBin Quant.DENS) s cs).Weight b ∧
        (0 < (List.foldl (accCell ctx Center r_max2 dr LogBin rho NBin Quant.DENS) s cs).NCell b →
          0 < (List.foldl (accCell ctx Center r_max2 dr LogBin rho NBin Quant.DENS) s cs).Weight b) by
    exact h cells hdens hdh AccState.init
      (fun b => ⟨(mul_zero rho0).symm, le_refl 0, fun hx => absurd hx (lt_irrefl 0)⟩)
  intro cs
  induction cs with
  | nil => intro _ _ s h0; exact h0
  | cons cI rest ih =>
      intro hde hdh2 s h0
      rw [List.foldl_cons]
      refine ih (fun c hc => hde c (List.mem_cons_of_mem _ hc))
        (fun c hc => hdh2 c (List.mem_cons_of_mem _ hc)) _ ?_
      have hdv : (0 : ℝ) < cI.dh ^ 3 := pow_pos (hdh2 cI (List.mem_cons_self _ _)) 3
      have hρ : cI.fluid Fluid.DENS = rho0 := hde cI (List.mem_cons_self _ _)
      intro b
      by_cases h1 : cellR2 ctx Center cI < r_max2
      · by_cases h2 : binOf LogBin dr rho (Real.sqrt (cellR2 ctx Center cI)) ≥ NBin
        · rw [accCell_skip h1 h2]; exact h0 b
        · rw [accCell_hit h1 (not_le.1 h2)]
          unfold accAdd quantContrib
          by_cases hb : b = (binOf LogBin dr rho (Real.sqrt (cellR2 ctx Center cI))).toNat
          · subst hb
            simp only [Function.update_same]
            obtain ⟨hDW, hWnn, _⟩ :=
              h0 (binOf LogBin dr rho (Real.sqrt (cellR2 ctx Center cI))).toNat
            refine ⟨by rw [hDW, hρ]; ring, by linarith, fun _ => by linarith⟩
          · simp only [Function.update_noteq hb]
            exact h0 b
      · rw [accCell_far h1]; exact h0 b

/-- C7: for a uniform density field (every cell has density `rho0`, with
positive cell spacing), the normalized `DENS` profile equals `rho0` in
every bin with a positive cell count, for every binning mode, bin width
and center. -/
theorem uniform_density_profile (ctx : Ctx) (Center : Fin 3 → ℝ) (r_max2 dr : ℝ)
    (LogBin : Bool) (rho : ℝ) (NBin : ℤ) (cells : List CellSample) (rho0 : ℝ)
    (hdens : ∀ c ∈ cells, c.fluid Fluid.DENS = rho0)
    (hdh : ∀ c ∈ cells, 0 < c.dh)
    (s : AccState)
    (hs : s = accProfile ctx Center r_max2 dr LogBin rho NBin Quant.DENS cells)
    (b : ℕ) (hne : 0 < s.NCell b) :
    normEntry Quant.DENS (s.NCell b) (s.Data b) (s.Weight b) = rho0 := by
  subst hs
  obtain ⟨hDW, _, hWpos⟩ :=
    accProfile_dens_inv ctx Center r_max2 dr LogBin rho NBin cells rho0 hdens hdh b
  have hw := hWpos hne
  rw [normEntry_plain (by simp) hne, hDW, mul_div_assoc, div_self (ne_of_gt hw), mul_one]

/-- Concrete evaluation: the single cell `cellW` at the center lands in
bin 0 of a linear profile with `dr_min = 1`, `NBin = 1`, `r_max2 = 1`. -/
theorem accProfile_cellW_eval :
    (accProfile ctx0 c0 1 1 false 2 1 Quant.DENS [cellW]).NCell 0 = 1 ∧
    (accProfile ctx0 c0 1 1 false 2 1 Quant.DENS [cellW]).Data 0 = 2 ∧
    (accProfile ctx0 c0 1 1 false 2 1 Quant.DENS [cellW]).Weight 0 = 1 := by
  have h2 : cellR2 ctx0 c0 cellW = 0 := by
    simp [cellR2, cellOffset, wrapAxis, ctx0, c0, cellW]
  have hsq : Real.sqrt (cellR2 ctx0 c0 cellW) = 0 := by rw [h2, Real.sqrt_zero]
  have hbin : binOf false 1 2 (Real.sqrt (cellR2 ctx0 c0 cellW)) = 0 := by
    rw [hsq]
    show cIntR (0 / 1) = 0
    rw [cIntR_of_nonneg (by norm_num)]
    norm_num
  have hacc : accProfile ctx0 c0 1 1 false 2 1 Quant.DENS [cellW] =
      accCell ctx0 c0 1 1 false 2 1 Quant.DENS AccState.init cellW := rfl
  rw [hacc, accCell_hit (by rw [h2]; norm_num) (by rw [hbin]; norm_num), hbin]
  unfold accAdd quantContrib
  simp [AccState.init, cellW]

/-- Witness for `uniform_density_profile`: the one-cell uniform field of
density `2` yields a `DENS` profile value of exactly `2` in bin 0. -/
theorem uniform_density_profile_witness :
    normEntry Quant.DENS ((accProfile ctx0 c0 1 1 false 2 1 Quant.DENS [cellW]).NCell 0)
      ((accProfile ctx0 c0 1 1 false 2 1 Quant.DENS [cellW]).Data 0)
      ((accProfile ctx0 c0 1 1 false 2 1 Quant.DENS [cellW]).Weight 0) = 2 :=
  uniform_density_profile ctx0 c0 1 1 false 2 1 [cellW] 2
    (fun c hc => by rw [List.mem_singleton] at hc; rw [hc]; rfl)
    (fun c hc => by rw [List.mem_singleton] at hc; rw [hc]; norm_num [cellW])
    _ rfl 0 (by rw [accProfile_cellW_eval.1]; norm_num)

/-! ### C9 : cell-count conservation -/

/-- The configured maximum radius is positive whenever at least one bin is
configured. -/
theorem MaxRadius_pos (LogBin : Bool) {dr rho : ℝ} {N : ℤ} (hd : 0 < dr)
    (hrho : LogBin = true → 1 < rho) (hN : 1 ≤ N) :
    0 < MaxRadius_of LogBin dr rho N := by
  cases LogBin with
  | false =>
      show 0 < dr * (N : ℝ)
      exact mul_pos hd (by exact_mod_cast (by omega : (0 : ℤ) < N))
  | true =>
      show 0 < dr * rho ^ (((N - 1 : ℤ) : ℝ))
      exact mul_pos hd (Real.rpow_pos_of_pos (lt_trans zero_lt_one (hrho rfl)) _)

/-- In exact arithmetic, a nonnegative distance strictly inside the
configured maximum radius is assigned a bin index in `[0, N)` — the
round-off guard of line 212 never fires. -/
theorem binOf_range (LogBin : Bool) {dr rho r : ℝ} {N : ℤ}
    (hd : 0 < dr) (hrho : LogBin = true → 1 < rho) (hN : 1 ≤ N)
    (hr : 0 ≤ r) (hlt : r < MaxRadius_of LogBin dr rho N) :
    0 ≤ binOf LogBin dr rho r ∧ binOf LogBin dr rho r < N := by
  cases LogBin with
  | false =>
      have hb : binOf false dr rho r = ⌊r / dr⌋ := by
        show cIntR (r / dr) = ⌊r / dr⌋
        exact cIntR_of_nonneg (div_nonneg hr hd.le)
      have hlt2 : r < dr * (N : ℝ) := hlt
      have hq : r / dr < (N : ℝ) := (div_lt_iff hd).mpr (by rw [mul_comm]; exact hlt2)
      rw [hb]
      exact ⟨Int.floor_nonneg.mpr (div_nonneg hr hd.le), Int.floor_lt.mpr hq⟩
  | true =>
      have hρ := hrho rfl
      have hρ0 : (0 : ℝ) < rho := lt_trans zero_lt_one hρ
      by_cases hlt2 : r < dr
      · have hb : binOf true dr rho r = 0 := by
          show (if r < dr then 0 else cIntR (Real.log (r / dr) / Real.log rho) + 1) = 0
          rw [if_pos hlt2]
        rw [hb]
        exact ⟨le_refl 0, by omega⟩
      · have hdr : dr ≤ r := not_lt.1 hlt2
        have hx : 0 ≤ Real.log (r / dr) / Real.log rho :=
          div_nonneg (Real.log_nonneg ((one_le_div hd).mpr hdr)) (Real.log_pos hρ).le
        have hb : binOf true dr rho r = ⌊Real.log (r / dr) / Real.log rho⌋ + 1 := by
          show (if r < dr then 0 else cIntR (Real.log (r / dr) / Real.log rho) + 1) = _
          rw [if_neg hlt2, cIntR_of_nonneg hx]
        have hmr : r < dr * rho ^ (((N - 1 : ℤ) : ℝ)) := hlt
        have hrdr : r / dr < rho ^ (((N - 1 : ℤ) : ℝ)) :=
          (div_lt_iff hd).mpr (by rw [mul_comm]; exact hmr)
        have hpos : 0 < r / dr := div_pos (lt_of_lt_of_le hd hdr) hd
        have hlog : Real.log (r / dr) < ((N - 1 : ℤ) : ℝ) * Real.log rho := by
          have h := Real.log_lt_log hpos hrdr
          rwa [Real.log_rpow hρ0] at h
        have hq : Real.log (r / dr) / Real.log rho < ((N - 1 : ℤ) : ℝ) :=
          (div_lt_iff (Real.log_pos hρ)).mpr hlog
        have hfl : ⌊Real.log (r / dr) / Real.log rho⌋ < N - 1 := Int.floor_lt.mpr hq
        rw [hb]
        exact ⟨by have := Int.floor_nonneg.mpr hx; omega, by omega⟩

/-- Each in-range cell adds exactly one to the total cell count, provided
its bin index lies in range. -/
theorem sum_NCell_foldl (ctx : Ctx) (Center : Fin 3 → ℝ) (r_max2 dr : ℝ)
    (LogBin : Bool) (rho : ℝ) (N : ℤ) (q : Quant) (cells : List CellSample)
    (hbin : ∀ c ∈ cells, cellR2 ctx Center c < r_max2 →
      0 ≤ binOf LogBin dr rho (Real.sqrt (cellR2 ctx Center c)) ∧
      binOf LogBin dr rho (Real.sqrt (cellR2 ctx Center c)) < N) :
    ∀ s : AccState,
      (∑ b in Finset.range N.toNat,
        (List.foldl (accCell ctx Center r_max2 dr LogBin rho N q) s cells).NCell b)
      = (∑ b in Finset.range N.toNat, s.NCell b)
        + (cells.countP (fun c => decide (cellR2 ctx Center c < r_max2)) : ℤ) := by
  induction cells with
  | nil => intro s; simp
  | cons cI rest ih =>
      intro s
      rw [List.foldl_cons, List.countP_cons,
        ih (fun c hc => hbin c (List.mem_cons_of_mem _ hc)) _]
      by_cases h1 : cellR2 ctx Center cI < r_max2
      · obtain ⟨hb0, hbN⟩ := hbin cI (List.mem_cons_self _ _) h1
        rw [accCell_hit h1 hbN]
        have hjmem : (binOf LogBin dr rho (Real.sqrt (cellR2 ctx Center cI))).toNat ∈
            Finset.range N.toNat := Finset.mem_range.mpr (by omega)
        simp only [accAdd]
        rw [Finset.sum_update_of_mem hjmem,
          ← Finset.add_sum_erase _ s.NCell hjmem,
          decide_eq_true h1]
        simp only [Finset.erase_eq, eq_self_iff_true, if_true]
        push_cast
        ring
      · rw [accCell_far h1, decide_eq_false h1]
        simp

/-- C9 (amended): provided the configuration yields at least one bin
(`bin_count ≥ 1`; automatic in linear mode), the sum of `cell_count[]`
over all bins equals the number of leaf cells of the selected levels whose
nearest-image-corrected distance from the center is strictly less than the
outer radius. -/
theorem cell_count_conservation {PS1 : ℕ} (ctx : Ctx) (Center : Fin 3 → ℝ)
    (r_max_input dr : ℝ) (LogBin : Bool) (rho : ℝ) (q : Quant) (SingleLv : ℤ)
    (levels : List (Level PS1)) (cells : List CellSample)
    (hcells : cells = (selectLevels SingleLv levels).flatMap levelCells)
    (N : ℤ) (hNdef : N = NBin_of LogBin r_max_input dr rho)
    (MaxR : ℝ) (hMR : MaxR = MaxRadius_of LogBin dr rho N)
    (hd : 0 < dr) (hrho : LogBin = true → 1 < rho) (hN : 1 ≤ N) :
    (∑ b in Finset.range N.toNat,
      (accProfile ctx Center (MaxR ^ 2) dr LogBin rho N q cells).NCell b)
      = (cells.countP
          (fun c => decide (Real.sqrt (cellR2 ctx Center c) < MaxR)) : ℤ) := by
  subst hMR
  have hMpos : 0 < MaxRadius_of LogBin dr rho N := MaxRadius_pos LogBin hd hrho hN
  have hpred : ∀ c : CellSample,
      (decide (Real.sqrt (cellR2 ctx Center c) < MaxRadius_of LogBin dr rho N))
        = (decide (cellR2 ctx Center c < MaxRadius_of LogBin dr rho N ^ 2)) :=
    fun c => decide_eq_decide.mpr (Real.sqrt_lt' hMpos)
  have hcnt : cells.countP
        (fun c => decide (Real.sqrt (cellR2 ctx Center c) < MaxRadius_of LogBin dr rho N))
      = cells.countP
        (fun c => decide (cellR2 ctx Center c < MaxRadius_of LogBin dr rho N ^ 2)) :=
    List.countP_congr (fun c _ => by rw [hpred c])
  rw [hcnt]
  have hbin : ∀ c ∈ cells, cellR2 ctx Center c < MaxRadius_of LogBin dr rho N ^ 2 →
      0 ≤ binOf LogBin dr rho (Real.sqrt (cellR2 ctx Center c)) ∧
      binOf LogBin dr rho (Real.sqrt (cellR2 ctx Center c)) < N := by
    intro c _ h1
    exact binOf_range LogBin hd hrho hN (Real.sqrt_nonneg _)
      ((Real.sqrt_lt' hMpos).mpr h1)
  have h := sum_NCell_foldl ctx Center (MaxRadius_of LogBin dr rho N ^ 2) dr LogBin rho
    N q cells hbin AccState.init
  unfold accProfile
  rw [h]
  simp [AccState.init]

/-- A concrete one-cell leaf patch for witnesses: `PS1 = 1`, left edge at
`-0.5` in every direction, so the single cell center is the origin. -/
def patchW : Patch 1 := ⟨-1, fun _ => -0.5, fun _ _ _ _ => 2⟩

/-- A concrete one-patch level for witnesses. -/
def lvlW : Level 1 := ⟨1, [patchW]⟩

/-- Witness for `cell_count_conservation`: the one-cell grid with linear
binning, `r_max = dr_min = 1`. -/
theorem cell_count_conservation_witness :
    (∑ b in Finset.range (NBin_of false 1 1 2).toNat,
      (accProfile ctx0 c0 (MaxRadius_of false 1 2 (NBin_of false 1 1 2) ^ 2) 1 false 2
        (NBin_of false 1 1 2) Quant.DENS
        ((selectLevels (-1) [lvlW]).flatMap levelCells)).NCell b)
      = (((selectLevels (-1) [lvlW]).flatMap levelCells).countP
          (fun c => decide (Real.sqrt (cellR2 ctx0 c0 c)
            < MaxRadius_of false 1 2 (NBin_of false 1 1 2))) : ℤ) :=
  cell_count_conservation ctx0 c0 1 1 false 2 Quant.DENS (-1) [lvlW] _ rfl _ rfl _ rfl
    (by norm_num) (fun h => by simp at h)
    (by show (1 : ℤ) ≤ ⌈(1 : ℝ) / 1⌉; norm_num)

/-- C9 counterexample: with the valid log configuration `r_max = 1/4`,
`dr_min = 1`, `ratio = 2` the code computes `bin_count = 0`, so a single
cell sitting exactly at the center (distance `0`, strictly inside the
outer radius `1/2`) is skipped by the `bin >= NBin` guard: the total cell
count is `0` although one leaf cell lies strictly within the outer
radius. -/
theorem cell_count_counterexample :
    (0 : ℝ) < 1 / 4 ∧ (0 : ℝ) < 1 ∧ (1 : ℝ) < 2 ∧
    NBin_of true (1 / 4) 1 2 = 0 ∧
    MaxRadius_of true 1 2 (NBin_of true (1 / 4) 1 2) = 1 / 2 ∧
    (∑ b in Finset.range (NBin_of true (1 / 4) 1 2).toNat,
      (accProfile ctx0 c0 (MaxRadius_of true 1 2 (NBin_of true (1 / 4) 1 2) ^ 2) 1 true 2
        (NBin_of true (1 / 4) 1 2) Quant.DENS [cellW]).NCell b) = 0 ∧
    ([cellW].countP
      (fun c => decide (Real.sqrt (cellR2 ctx0 c0 c)
        < MaxRadius_of true 1 2 (NBin_of true (1 / 4) 1 2))) : ℤ) = 1 ∧
    (0 : ℤ) ≠ 1 := by
  have hq : Real.log ((1 / 4 : ℝ) / 1) / Real.log 2 = -2 := by
    have h4 : ((1 / 4 : ℝ) / 1) = 2 ^ (-2 : ℤ) := by norm_num
    have hl : Real.log ((1 / 4 : ℝ) / 1) = (-2 : ℤ) * Real.log 2 := by
      rw [h4, Real.log_zpow]
    have hne : Real.log 2 ≠ 0 := ne_of_gt (Real.log_pos one_lt_two)
    rw [hl]
    push_cast
    field_simp
  have hNB : NBin_of true (1 / 4) 1 2 = 0 := by
    show cIntR (Real.log ((1 / 4 : ℝ) / 1) / Real.log 2) + 2 = 0
    rw [hq, cIntR_of_neg (by norm_num),
      show (-2 : ℝ) = ((-2 : ℤ) : ℝ) by norm_num, Int.ceil_intCast]
    norm_num
  have hMR : MaxRadius_of true 1 2 (NBin_of true (1 / 4) 1 2) = 1 / 2 := by
    rw [hNB]
    show (1 : ℝ) * 2 ^ (((-1 : ℤ) : ℝ)) = 1 / 2
    rw [Real.rpow_intCast]
    norm_num
  refine ⟨by norm_num, by norm_num, by norm_num, hNB, hMR, ?_, ?_, by norm_num⟩
  · rw [hNB]
    simp
  · have h2 : cellR2 ctx0 c0 cellW = 0 := by
      simp [cellR2, cellOffset, wrapAxis, ctx0, c0, cellW]
    rw [List.countP_singleton]
    rw [decide_eq_true (by rw [h2, Real.sqrt_zero, hMR]; norm_num)]
    norm_num

/-! ### C10 : cross-profile consistency -/

/-- One accumulation step changes the cell counts in a way that does not
depend on the profile's quantity. -/
theorem accCell_NCell_indep (ctx : Ctx) (Center : Fin 3 → ℝ) (r_max2 dr : ℝ)
    (LogBin : Bool) (rho : ℝ) (NBin : ℤ) (q q' : Quant)
    (s s' : AccState) (c : CellSample) (h : s.NCell = s'.NCell) :
    (accCell ctx Center r_max2 dr LogBin rho NBin q s c).NCell =
    (accCell ctx Center r_max2 dr LogBin rho NBin q' s' c).NCell := by
  by_cases h1 : cellR2 ctx Center c < r_max2
  · by_cases h2 : binOf LogBin dr rho (Real.sqrt (cellR2 ctx Center c)) ≥ NBin
    · rw [accCell_skip h1 h2, accCell_skip h1 h2]; exact h
    · rw [accCell_hit h1 (not_le.1 h2), accCell_hit h1 (not_le.1 h2)]
      simp only [accAdd]
      rw [h]
  · rw [accCell_far h1, accCell_far h1]; exact h

/-- The accumulated cell counts are identical for every quantity. -/
theorem accProfile_NCell_indep (ctx : Ctx) (Center : Fin 3 → ℝ) (r_max2 dr : ℝ)
    (LogBin : Bool) (rho : ℝ) (NBin : ℤ) (q q' : Quant) (cells : List CellSample) :
    (accProfile ctx Center r_max2 dr LogBin rho NBin q cells).NCell =
    (accProfile ctx Center r_max2 dr LogBin rho NBin q' cells).NCell := by
  suffices h : ∀ s s' : AccState, s.NCell = s'.NCell →
      (List.foldl (accCell ctx Center r_max2 dr LogBin rho NBin q) s cells).NCell =
      (List.foldl (accCell ctx Center r_max2 dr LogBin rho NBin q') s' cells).NCell by
    exact h _ _ rfl
  induction cells with
  | nil => intro s s' h; exact h
  | cons cI rest ih =>
      intro s s' h
      rw [List.foldl_cons, List.foldl_cons]
      exact ih _ _ (accCell_NCell_indep ctx Center r_max2 dr LogBin rho NBin q q' s s' cI h)

/-- The materialized `NCell` array of a raw profile is identical for every
quantity. -/
theorem computeProfileRaw_NCell_indep (ctx : Ctx) (Center : Fin 3 → ℝ)
    (r_max dr : ℝ) (LogBin : Bool) (rho : ℝ) (q q' : Quant) (cells : List CellSample) :
    (computeProfileRaw ctx Center r_max dr LogBin rho q cells).NCell =
    (computeProfileRaw ctx Center r_max dr LogBin rho q' cells).NCell := by
  show (List.range _).map (accProfile ctx Center _ dr LogBin rho _ q cells).NCell
      = (List.range _).map (accProfile ctx Center _ dr LogBin rho _ q' cells).NCell
  rw [accProfile_NCell_indep ctx Center _ dr LogBin rho _ q q' cells]

/-- C10: all profiles produced by one call hold the same bin count, the
same radius array and the same cell-count array — every in-range cell
increments every profile's count at the same bin, and compaction (driven
by profile 0's counts) removes the same bins from every profile. -/
theorem profiles_consistent {PS1 : ℕ} (ctx : Ctx) (Center : Fin 3 → ℝ)
    (r_max dr : ℝ) (LogBin : Bool) (rho : ℝ) (RemoveEmpty : Bool)
    (TVar : List Quant) (SingleLv : ℤ) (levels : List (Level PS1))
    (P P' : ProfileData)
    (hP : P ∈ computeCore ctx Center r_max dr LogBin rho RemoveEmpty TVar SingleLv levels)
    (hP' : P' ∈ computeCore ctx Center r_max dr LogBin rho RemoveEmpty TVar SingleLv levels) :
    P.NBin = P'.NBin ∧ P.Radius = P'.Radius ∧ P.NCell = P'.NCell := by
  unfold computeCore at hP hP'
  obtain ⟨Q, hQ, rfl⟩ := List.mem_map.1 hP
  obtain ⟨Q', hQ', rfl⟩ := List.mem_map.1 hP'
  suffices h : Q.NBin = Q'.NBin ∧ Q.Radius = Q'.Radius ∧ Q.NCell = Q'.NCell by
    exact h
  cases RemoveEmpty with
  | false =>
      rw [if_neg (by simp)] at hQ hQ'
      unfold rawProfiles at hQ hQ'
      obtain ⟨qa, _, rfl⟩ := List.mem_map.1 hQ
      obtain ⟨qb, _, rfl⟩ := List.mem_map.1 hQ'
      exact ⟨rfl, rfl, computeProfileRaw_NCell_indep ctx Center r_max dr LogBin rho qa qb _⟩
  | true =>
      rw [if_pos rfl] at hQ hQ'
      cases TVar with
      | nil => simp [rawProfiles, compactProfiles] at hQ
      | cons q0 rest =>
          have hrw : rawProfiles ctx Center r_max dr LogBin rho (q0 :: rest)
              (coreCells SingleLv levels)
            = computeProfileRaw ctx Center r_max dr LogBin rho q0 (coreCells SingleLv levels)
              :: rest.map (fun q => computeProfileRaw ctx Center r_max dr LogBin rho q
                (coreCells SingleLv levels)) := rfl
          rw [hrw] at hQ hQ'
          unfold compactProfiles at hQ hQ'
          obtain ⟨R, hR, rfl⟩ := List.mem_map.1 hQ
          obtain ⟨R', hR', rfl⟩ := List.mem_map.1 hQ'
          have hex : ∀ S : ProfileData,
              S ∈ computeProfileRaw ctx Center r_max dr LogBin rho q0 (coreCells SingleLv levels)
                :: rest.map (fun q => computeProfileRaw ctx Center r_max dr LogBin rho q
                  (coreCells SingleLv levels)) →
              ∃ qS, S = computeProfileRaw ctx Center r_max dr LogBin rho qS
                (coreCells SingleLv levels) := by
            intro S hS
            rcases List.mem_cons.1 hS with h | h
            · exact ⟨q0, h⟩
            · obtain ⟨qS, _, hqS⟩ := List.mem_map.1 h
              exact ⟨qS, hqS.symm⟩
          obtain ⟨qa, rfl⟩ := hex R hR
          obtain ⟨qb, rfl⟩ := hex R' hR'
          refine ⟨rfl, rfl, ?_⟩
          show maskKeep _ (computeProfileRaw ctx Center r_max dr LogBin rho qa _).NCell
            = maskKeep _ (computeProfileRaw ctx Center r_max dr LogBin rho qb _).NCell
          rw [computeProfileRaw_NCell_indep ctx Center r_max dr LogBin rho qa qb]

/-- Witness for `profiles_consistent`: a two-profile call (`DENS`, `VRAD`)
on the empty domain. -/
theorem profiles_consistent_witness :
    (updateMaxRadius false (computeProfileRaw ctx0 c0 1 1 false 2 Quant.DENS
        (coreCells (-1) ([] : List (Level 1))))).NBin =
      (updateMaxRadius false (computeProfileRaw ctx0 c0 1 1 false 2 Quant.VRAD
        (coreCells (-1) ([] : List (Level 1))))).NBin ∧
    (updateMaxRadius false (computeProfileRaw ctx0 c0 1 1 false 2 Quant.DENS
        (coreCells (-1) ([] : List (Level 1))))).Radius =
      (updateMaxRadius false (computeProfileRaw ctx0 c0 1 1 false 2 Quant.VRAD
        (coreCells (-1) ([] : List (Level 1))))).Radius ∧
    (updateMaxRadius false (computeProfileRaw ctx0 c0 1 1 false 2 Quant.DENS
        (coreCells (-1) ([] : List (Level 1))))).NCell =
      (updateMaxRadius false (computeProfileRaw ctx0 c0 1 1 false 2 Quant.VRAD
        (coreCells (-1) ([] : List (Level 1))))).NCell :=
  profiles_consistent ctx0 c0 1 1 false 2 false [Quant.DENS, Quant.VRAD] (-1) []
    _ _
    (by
      show _ ∈ List.map _ _
      exact List.mem_map_of_mem _ (List.mem_cons_self _ _))
    (by
      show _ ∈ List.map _ _
      exact List.mem_map_of_mem _ (List.mem_cons_of_mem _ (List.mem_cons_self _ _)))

/-! ### C6 : round-trip of empty-bin removal -/

/-- Manual removal of the zero-cell-count bins as described by the spec's
round-trip property: shift all four arrays down in lock-step (dropping the
empty bins), shrink `bin_count`, and recompute `max_radius` by the
compaction extrapolation rule. -/
noncomputable def manualRemoveEmptyBins (LogBin : Bool) (profs : List ProfileData) :
    List ProfileData :=
  (compactProfiles profs).map (updateMaxRadius LogBin)

/-- The maximum-radius update ignores the previous `MaxRadius` value, so
an earlier update is absorbed by compaction followed by a later one. -/
theorem upd_compactOne_upd (L : Bool) (mask : List Bool) (rm : ℤ) (P : ProfileData) :
    updateMaxRadius L (compactOne mask rm (updateMaxRadius L P)) =
    updateMaxRadius L (compactOne mask rm P) := by
  cases P
  rfl

/-- Round-trip at the core level: running with `RemoveEmpty = true` equals
running with `RemoveEmpty = false` and then removing the empty bins
manually. -/
theorem core_roundtrip {PS1 : ℕ} (ctx : Ctx) (Center : Fin 3 → ℝ)
    (r_max dr : ℝ) (LogBin : Bool) (rho : ℝ) (TVar : List Quant)
    (SingleLv : ℤ) (levels : List (Level PS1)) :
    computeCore ctx Center r_max dr LogBin rho true TVar SingleLv levels =
    manualRemoveEmptyBins LogBin
      (computeCore ctx Center r_max dr LogBin rho false TVar SingleLv levels) := by
  unfold computeCore manualRemoveEmptyBins
  rw [if_pos rfl, if_neg (by simp)]
  cases TVar with
  | nil => rfl
  | cons q0 rest =>
      have hrw : rawProfiles ctx Center r_max dr LogBin rho (q0 :: rest)
          (coreCells SingleLv levels)
        = computeProfileRaw ctx Center r_max dr LogBin rho q0 (coreCells SingleLv levels)
          :: rest.map (fun q => computeProfileRaw ctx Center r_max dr LogBin rho q
            (coreCells SingleLv levels)) := rfl
      rw [hrw, List.map_cons]
      unfold compactProfiles
      rw [List.map_map, List.map_map]
      rw [show (updateMaxRadius LogBin (computeProfileRaw ctx Center r_max dr LogBin rho
            q0 (coreCells SingleLv levels)) ::
          List.map (updateMaxRadius LogBin)
            (List.map (fun q => computeProfileRaw ctx Center r_max dr LogBin rho q
              (coreCells SingleLv levels)) rest))
          = List.map (updateMaxRadius LogBin)
            (computeProfileRaw ctx Center r_max dr LogBin rho q0 (coreCells SingleLv levels) ::
              List.map (fun q => computeProfileRaw ctx Center r_max dr LogBin rho q
                (coreCells SingleLv levels)) rest) from (List.map_cons _ _ _).symm]
      rw [List.map_map]
      apply List.map_congr_left
      intro Q _
      exact (upd_compactOne_upd LogBin _ _ Q).symm

/-- C6: computing with `RemoveEmpty = true` yields exactly the result of
computing with `RemoveEmpty = false` followed by manually removing the
zero-cell-count bins (lock-step shift of the four arrays, `bin_count`
shrink, and `max_radius` recomputed by the extrapolation rule). -/
theorem remove_empty_roundtrip (dbg : Bool) {PS1 : ℕ} (ctx : Ctx) (Center : Fin 3 → ℝ)
    (r_max dr : ℝ) (LogBin : Bool) (rho : ℝ) (TVar : List Quant)
    (SingleLv : ℤ) (levels : List (Level PS1)) :
    Aux_ComputeProfile dbg ctx Center r_max dr LogBin rho true TVar SingleLv levels =
    Except.map (manualRemoveEmptyBins LogBin)
      (Aux_ComputeProfile dbg ctx Center r_max dr LogBin rho false TVar SingleLv levels) := by
  unfold Aux_ComputeProfile
  by_cases hdbg : dbg = true
  · rw [if_pos hdbg, if_pos hdbg]
    by_cases h1 : r_max ≤ 0
    · rw [if_pos h1, if_pos h1]; rfl
    · rw [if_neg h1, if_neg h1]
      by_cases h2 : dr ≤ 0
      · rw [if_pos h2, if_pos h2]; rfl
      · rw [if_neg h2, if_neg h2]
        by_cases h3 : LogBin = true ∧ rho ≤ 1
        · rw [if_pos h3, if_pos h3]; rfl
        · rw [if_neg h3, if_neg h3,
            core_roundtrip ctx Center r_max dr LogBin rho TVar SingleLv levels]
          rfl
  · rw [if_neg hdbg, if_neg hdbg,
      core_roundtrip ctx Center r_max dr LogBin rho TVar SingleLv levels]
    rfl

/-! ### C8 : the maximum-radius update -/

/-- Reading a materialized array of bin values at an in-range index. -/
theorem getD_range_map (f : ℕ → ℝ) (n i : ℕ) (h : i < n) :
    ((List.range n).map f).getD i 0 = f i := by
  rw [List.getD_eq_getElem?_getD, List.getElem?_map, List.getElem?_range h]
  rfl

/-- C8 (amended): the maximum radius is recomputed unconditionally at the
end of every call, by linear extrapolation `2*radius[last] - radius[last-1]`
in linear mode and geometric extrapolation `radius[last]^2 / radius[last-1]`
in log mode; with `RemoveEmpty = false` the compaction phase is skipped
entirely (the call is exactly geometry + accumulation + normalization
followed by the update), and the update changes only `max_radius` — all
other profile fields are untouched.  In particular `max_radius` after a
`RemoveEmpty = false` call is the extrapolated value, not the value set by
the geometry configurator. -/
theorem max_radius_update {PS1 : ℕ} (ctx : Ctx) (Center : Fin 3 → ℝ)
    (r_max dr : ℝ) (LogBin : Bool) (rho : ℝ) (TVar : List Quant)
    (SingleLv : ℤ) (levels : List (Level PS1))
    (hNB : 2 ≤ NBin_of LogBin r_max dr rho) :
    computeCore ctx Center r_max dr LogBin rho false TVar SingleLv levels
      = (rawProfiles ctx Center r_max dr LogBin rho TVar (coreCells SingleLv levels)).map
          (updateMaxRadius LogBin) ∧
    (∀ (L : Bool) (P : ProfileData),
      (updateMaxRadius L P).NBin = P.NBin ∧ (updateMaxRadius L P).Radius = P.Radius ∧
      (updateMaxRadius L P).Data = P.Data ∧ (updateMaxRadius L P).Weight = P.Weight ∧
      (updateMaxRadius L P).NCell = P.NCell ∧ (updateMaxRadius L P).Center = P.Center) ∧
    (∀ q : Quant,
      (updateMaxRadius LogBin (computeProfileRaw ctx Center r_max dr LogBin rho q
        (coreCells SingleLv levels))).MaxRadius =
      (if LogBin = true then
        Radius_of LogBin dr rho ((NBin_of LogBin r_max dr rho).toNat - 1) ^ 2 /
          Radius_of LogBin dr rho ((NBin_of LogBin r_max dr rho).toNat - 2)
       else
        2 * Radius_of LogBin dr rho ((NBin_of LogBin r_max dr rho).toNat - 1) -
          Radius_of LogBin dr rho ((NBin_of LogBin r_max dr rho).toNat - 2))) := by
  refine ⟨by unfold computeCore; rw [if_neg (by simp)],
    fun L P => ⟨rfl, rfl, rfl, rfl, rfl, rfl⟩, fun q => ?_⟩
  show (if LogBin = true then
      (((List.range (NBin_of LogBin r_max dr rho).toNat).map
          (Radius_of LogBin dr rho)).getD (NBin_of LogBin r_max dr rho - 1).toNat 0) ^ 2 /
        ((List.range (NBin_of LogBin r_max dr rho).toNat).map
          (Radius_of LogBin dr rho)).getD (NBin_of LogBin r_max dr rho - 2).toNat 0
    else
      2 * ((List.range (NBin_of LogBin r_max dr rho).toNat).map
          (Radius_of LogBin dr rho)).getD (NBin_of LogBin r_max dr rho - 1).toNat 0 -
        ((List.range (NBin_of LogBin r_max dr rho).toNat).map
          (Radius_of LogBin dr rho)).getD (NBin_of LogBin r_max dr rho - 2).toNat 0) = _
  have h1 : (NBin_of LogBin r_max dr rho - 1).toNat
      = (NBin_of LogBin r_max dr rho).toNat - 1 := by omega
  have h2 : (NBin_of LogBin r_max dr rho - 2).toNat
      = (NBin_of LogBin r_max dr rho).toNat - 2 := by omega
  have hb1 : (NBin_of LogBin r_max dr rho).toNat - 1
      < (NBin_of LogBin r_max dr rho).toNat := by omega
  have hb2 : (NBin_of LogBin r_max dr rho).toNat - 2
      < (NBin_of LogBin r_max dr rho).toNat := by omega
  rw [h1, h2, getD_range_map _ _ _ hb1, getD_range_map _ _ _ hb2]

/-- Witness for `max_radius_update`: linear binning, `r_max = 2`,
`dr_min = 1`, one `DENS` profile, empty domain. -/
theorem max_radius_update_witness :
    computeCore ctx0 c0 2 1 false 2 false [Quant.DENS] (-1) ([] : List (Level 1))
      = (rawProfiles ctx0 c0 2 1 false 2 [Quant.DENS] (coreCells (-1)
          ([] : List (Level 1)))).map (updateMaxRadius false) ∧
    (∀ (L : Bool) (P : ProfileData),
      (updateMaxRadius L P).NBin = P.NBin ∧ (updateMaxRadius L P).Radius = P.Radius ∧
      (updateMaxRadius L P).Data = P.Data ∧ (updateMaxRadius L P).Weight = P.Weight ∧
      (updateMaxRadius L P).NCell = P.NCell ∧ (updateMaxRadius L P).Center = P.Center) ∧
    (∀ q : Quant,
      (updateMaxRadius false (computeProfileRaw ctx0 c0 2 1 false 2 q
        (coreCells (-1) ([] : List (Level 1))))).MaxRadius =
      (if false = true then
        Radius_of false 1 2 ((NBin_of false 2 1 2).toNat - 1) ^ 2 /
          Radius_of false 1 2 ((NBin_of false 2 1 2).toNat - 2)
       else
        2 * Radius_of false 1 2 ((NBin_of false 2 1 2).toNat - 1) -
          Radius_of false 1 2 ((NBin_of false 2 1 2).toNat - 2))) :=
  max_radius_update ctx0 c0 2 1 false 2 [Quant.DENS] (-1) []
    (by show (2 : ℤ) ≤ ⌈(2 : ℝ) / 1⌉; norm_num)

/-- C8 counterexample: with `RemoveEmpty = false`, linear binning,
`r_max = 2`, `dr_min = 1` (so the configurator sets `max_radius = 2`,
`radius = [0.5, 1.5]`), the call still overwrites `max_radius` with the
extrapolated value `2*1.5 - 0.5 = 5/2 ≠ 2`: the update is not restricted
to compaction. -/
theorem max_radius_counterexample :
    (computeCore ctx0 c0 2 1 false 2 false [Quant.DENS] (-1)
      ([] : List (Level 1))).map ProfileData.MaxRadius = [5 / 2] ∧
    MaxRadius_of false 1 2 (NBin_of false 2 1 2) = 2 ∧
    ((5 : ℝ) / 2) ≠ 2 := by
  have hNB : NBin_of false 2 1 2 = 2 := by
    show (⌈(2 : ℝ) / 1⌉ : ℤ) = 2
    norm_num
  refine ⟨?_, ?_, by norm_num⟩
  · show [(updateMaxRadius false (computeProfileRaw ctx0 c0 2 1 false 2 Quant.DENS
      (coreCells (-1) ([] : List (Level 1))))).MaxRadius] = [5 / 2]
    have hm : (updateMaxRadius false (computeProfileRaw ctx0 c0 2 1 false 2 Quant.DENS
        (coreCells (-1) ([] : List (Level 1))))).MaxRadius = 5 / 2 := by
      show 2 * ((List.range (NBin_of false 2 1 2).toNat).map (Radius_of false 1 2)).getD
          (NBin_of false 2 1 2 - 1).toNat 0
        - ((List.range (NBin_of false 2 1 2).toNat).map (Radius_of false 1 2)).getD
          (NBin_of false 2 1 2 - 2).toNat 0 = 5 / 2
      rw [hNB, show ((2 : ℤ) - 1).toNat = 1 by decide, show ((2 : ℤ) - 2).toNat = 0 by decide,
        show ((2 : ℤ)).toNat = 2 by decide,
        getD_range_map (Radius_of false 1 2) 2 1 (by norm_num),
        getD_range_map (Radius_of false 1 2) 2 0 (by norm_num)]
      simp only [Radius_of, Bool.false_eq_true, if_false]
      norm_num
    rw [hm]
  · rw [hNB]
    show (1 : ℝ) * ((2 : ℤ) : ℝ) = 2
    norm_num

end GamerProfile
